import Mathlib

/-
Verification development for the honogram LAN chat server
(src/src/server.ts, class HonoLanChatServer) and its CLI client
(sendFile).  The server is embedded shallowly: the mutable fields
`users : Map<string, User>` and `chatLog : ChatMessage[]` become a
`ServerState`, and every handler returns the new state together with the
ordered list of observable side effects it performs (log appends,
websocket sends, durable file writes).  Fresh nanoid values and
timestamps are nondeterministic inputs of the handlers.  JS `Map`
iteration order (insertion order, `set` on an existing key keeps the
position) is modelled by an association list.
-/

namespace Honogram

/-- Kind tag of a chat message (`ChatMessage.type` in server.ts:22). -/
inductive MsgType
  | message
  | file
  | system
  deriving DecidableEq, Repr

/-- `ChatMessage` record (server.ts:17-23). -/
structure ChatMessage where
  id : String
  username : String
  message : String
  timestamp : String
  type : MsgType
  deriving DecidableEq, Repr

/-- `User` record (server.ts:11-15); the `ws` handle is abstracted to the
one property the server reads from it, `readyState === OPEN`. -/
structure User where
  id : String
  username : String
  wsOpen : Bool
  deriving DecidableEq, Repr

/-- `FileTransfer` payload (server.ts:25-30).  `fileSize` is the declared
size (a JS number, modelled as a natural). -/
structure FileTransfer where
  filename : String
  fileData : String
  fileSize : Nat
  sender : String
  deriving DecidableEq, Repr

/-- Outbound websocket messages, one constructor per `type` value the
server ever serializes (server.ts:217-223, 304-307, 272-281, 333-336). -/
inductive OutMsg
  | message (data : ChatMessage)
  | joined (chatHistory : List ChatMessage) (users : List String)
  | userList (data : List String)
  | fileReceived (filename fileData sender : String) (fileSize : Nat)
      (downloadUrl : String)
  deriving DecidableEq, Repr

/-- Observable side effects of a handler, in the order the code performs
them: a push onto `chatLog`, a `ws.send` to one connection, the rewrite
of `chatlog.txt` with the full log, and a write into `received/`. -/
inductive Effect
  | appendLog (m : ChatMessage)
  | send (userId : String) (m : OutMsg)
  | saveLog (log : List ChatMessage)
  | writeFile (path : String) (contents : List Nat)
  deriving DecidableEq, Repr

/-- The server's shared mutable state (server.ts:34-35). -/
structure ServerState where
  users : List (String × User)
  chatLog : List ChatMessage
  deriving DecidableEq, Repr

/-- `Map.get` (insertion-ordered association list): the value at the
first matching key. -/
def mapGet : List (String × User) → String → Option User
  | [], _ => none
  | p :: m, k => if p.1 = k then some p.2 else mapGet m k

/-- `Map.has`. -/
def mapMember : List (String × User) → String → Bool
  | [], _ => false
  | p :: m, k => p.1 == k || mapMember m k

/-- Replace the value at a key, keeping its position. -/
def mapReplace : List (String × User) → String → User → List (String × User)
  | [], _, _ => []
  | p :: m, k, v =>
      if p.1 = k then (k, v) :: mapReplace m k v else p :: mapReplace m k v

/-- `Map.set`: replace in place when the key is present, else append. -/
def mapSet (m : List (String × User)) (k : String) (v : User) :
    List (String × User) :=
  if mapMember m k then mapReplace m k v else m ++ [(k, v)]

/-- `Map.delete`. -/
def mapDelete : List (String × User) → String → List (String × User)
  | [], _ => []
  | p :: m, k => if p.1 = k then mapDelete m k else p :: mapDelete m k

/-- `Array.from(this.users.values()).map(u => u.username)`
(server.ts:90-92, 221, 330-332). -/
def usernames (m : List (String × User)) : List String :=
  m.map (fun p => p.2.username)

/-- The base64 alphabet character for a 6-bit value (the encoding used by
`Buffer.toString("base64")` in the CLI client's `sendFile`). -/
def b64Char (v : Nat) : Char :=
  if v < 26 then Char.ofNat (65 + v)
  else if v < 52 then Char.ofNat (97 + (v - 26))
  else if v < 62 then Char.ofNat (48 + (v - 52))
  else if v = 62 then Char.ofNat 43
  else Char.ofNat 47

/-- The 6-bit value of a base64 alphabet character, `none` for every
other character (including the padding character). -/
def b64Val? (c : Char) : Option Nat :=
  if 65 ≤ c.toNat ∧ c.toNat ≤ 90 then some (c.toNat - 65)
  else if 97 ≤ c.toNat ∧ c.toNat ≤ 122 then some (c.toNat - 97 + 26)
  else if 48 ≤ c.toNat ∧ c.toNat ≤ 57 then some (c.toNat - 48 + 52)
  else if c.toNat = 43 then some 62
  else if c.toNat = 47 then some 63
  else none

/-- Standard padded base64 of a byte list: `fileData.toString("base64")`
in the CLI client (sendFile) and the web client's data-URL encoding. -/
def base64EncodeBytes : List Nat → List Char
  | [] => []
  | [b0] => [b64Char (b0 / 4), b64Char (b0 % 4 * 16), Char.ofNat 61,
      Char.ofNat 61]
  | [b0, b1] => [b64Char (b0 / 4), b64Char (b0 % 4 * 16 + b1 / 16),
      b64Char (b1 % 16 * 4), Char.ofNat 61]
  | b0 :: b1 :: b2 :: rest =>
      b64Char (b0 / 4) :: b64Char (b0 % 4 * 16 + b1 / 16) ::
      b64Char (b1 % 16 * 4 + b2 / 64) :: b64Char (b2 % 64) ::
      base64EncodeBytes rest

/-- Reassemble bytes from a stream of 6-bit values; a trailing single
value contributes no byte. -/
def decodeVals : List Nat → List Nat
  | v0 :: v1 :: v2 :: v3 :: rest =>
      (v0 * 4 + v1 / 16) :: (v1 % 16 * 16 + v2 / 4) ::
      (v2 % 4 * 64 + v3) :: decodeVals rest
  | [v0, v1, v2] => [v0 * 4 + v1 / 16, v1 % 16 * 16 + v2 / 4]
  | [v0, v1] => [v0 * 4 + v1 / 16]
  | _ => []

/-- `Buffer.from(str, "base64")` (server.ts:250): Node's decoder is
lenient and total — characters outside the base64 alphabet (padding
included) are skipped, and whatever 6-bit groups remain are reassembled
into bytes.  It never throws. -/
def nodeBase64Decode (s : String) : List Nat :=
  decodeVals (s.data.filterMap b64Val?)

/-- A decimal rendering of a count of hundredths with trailing zeros
stripped, as `parseFloat(x.toFixed(2))` ends up displaying. -/
def decimalString (h : Nat) : String :=
  if h % 100 = 0 then toString (h / 100)
  else if h % 10 = 0 then toString (h / 100) ++ "." ++ toString (h / 10 % 10)
  else if h % 100 < 10 then toString (h / 100) ++ ".0" ++ toString (h % 100)
  else toString (h / 100) ++ "." ++ toString (h % 100)

/-- `formatFileSize` (server.ts:352-358).  The IEEE-754 computation
`Math.floor(Math.log(bytes)/Math.log(1024))` and `toFixed(2)` are
modelled with exact natural arithmetic (`Nat.log` and truncation to
hundredths); no theorem below depends on the rendered digits, only on
the rendering being a function of `bytes` alone. -/
def formatFileSize (bytes : Nat) : String :=
  if bytes = 0 then "0 B"
  else
    let i := Nat.log 1024 bytes
    decimalString (bytes * 100 / 1024 ^ i) ++ " " ++
      (["B", "KB", "MB", "GB"].getD i "")

/-- `broadcast` (server.ts:311-318): send one serialized message to every
registered user whose transport is open, in registry order. -/
def broadcast (users : List (String × User)) (m : OutMsg) : List Effect :=
  (users.filter (fun p => p.2.wsOpen)).map (fun p => Effect.send p.1 m)

/-- `broadcastToOthers` (server.ts:320-327): as `broadcast` but skipping
one user id. -/
def broadcastToOthers (users : List (String × User)) (excludeUserId : String)
    (m : OutMsg) : List Effect :=
  (users.filter (fun p => p.1 != excludeUserId && p.2.wsOpen)).map
    (fun p => Effect.send p.1 m)

/-- `broadcastUserList` (server.ts:329-337). -/
def broadcastUserList (users : List (String × User)) : List Effect :=
  broadcast users (OutMsg.userList (usernames users))

/-- `broadcastMessage` (server.ts:302-309): push onto `chatLog`, fan the
event out, then rewrite the persisted log. -/
def broadcastMessage (s : ServerState) (m : ChatMessage) :
    ServerState × List Effect :=
  let log := s.chatLog ++ [m]
  ({ s with chatLog := log },
    Effect.appendLog m :: (broadcast s.users (OutMsg.message m) ++
      [Effect.saveLog log]))

/-- The system join event literal (server.ts:205-211). -/
def joinMessage (username msgId ts : String) : ChatMessage :=
  ⟨msgId, "System", username ++ " joined the chat", ts, MsgType.system⟩

/-- The system leave event literal (server.ts:287-293). -/
def leaveMessage (username msgId ts : String) : ChatMessage :=
  ⟨msgId, "System", username ++ " left the chat", ts, MsgType.system⟩

/-- The file notice event literal (server.ts:253-261). -/
def fileNoticeMessage (senderName : String) (fd : FileTransfer)
    (msgId ts : String) : ChatMessage :=
  ⟨msgId, senderName,
    "📎 Shared file: " ++ fd.filename ++ " (" ++ formatFileSize fd.fileSize
      ++ ")",
    ts, MsgType.file⟩

/-- The `file_received` payload literal (server.ts:272-281). -/
def fileReceivedMsg (fd : FileTransfer) (senderName : String) : OutMsg :=
  OutMsg.fileReceived fd.filename fd.fileData senderName fd.fileSize
    ("/api/download/" ++ fd.filename)

/-- `handleUserJoin` (server.ts:196-226): register the user (any name,
no validation), publish the system join event, send the joining
connection its private snapshot, then broadcast the user list.
`wsOpen` is the open state of the joining connection's transport;
`msgId` and `ts` are the fresh nanoid and timestamp. -/
def handleUserJoin (s : ServerState) (userId username : String)
    (wsOpen : Bool) (msgId ts : String) : ServerState × List Effect :=
  let users1 := mapSet s.users userId ⟨userId, username, wsOpen⟩
  let jm := joinMessage username msgId ts
  let r := broadcastMessage { s with users := users1 } jm
  (r.1, r.2 ++
    (Effect.send userId (OutMsg.joined r.1.chatLog (usernames users1)) ::
      broadcastUserList users1))

/-- `handleChatMessage` (server.ts:228-242): a no-op for an unregistered
sender, otherwise publish a `message` event under the sender's name. -/
def handleChatMessage (s : ServerState) (userId messageText : String)
    (msgId ts : String) : ServerState × List Effect :=
  match mapGet s.users userId with
  | none => (s, [])
  | some user =>
      broadcastMessage s
        ⟨msgId, user.username, messageText, ts, MsgType.message⟩

/-- `handleFileTransfer` (server.ts:244-282): a no-op for an unregistered
sender; otherwise write the (leniently) decoded bytes to
`received/<filename>`, publish a `file` notice rendering the declared
size, then send the `file_received` notification to every other open
connection. -/
def handleFileTransfer (s : ServerState) (userId : String)
    (fd : FileTransfer) (msgId ts : String) : ServerState × List Effect :=
  match mapGet s.users userId with
  | none => (s, [])
  | some user =>
      let contents := nodeBase64Decode fd.fileData
      let fm := fileNoticeMessage user.username fd msgId ts
      let r := broadcastMessage s fm
      (r.1, Effect.writeFile ("received/" ++ fd.filename) contents ::
        (r.2 ++ broadcastToOthers s.users userId
          (fileReceivedMsg fd user.username)))

/-- `handleUserDisconnect` (server.ts:284-300): a no-op for an id not in
the registry; otherwise publish the system leave event, delete the
entry, then broadcast the user list. -/
def handleUserDisconnect (s : ServerState) (userId : String)
    (msgId ts : String) : ServerState × List Effect :=
  match mapGet s.users userId with
  | none => (s, [])
  | some user =>
      let lm := leaveMessage user.username msgId ts
      let r := broadcastMessage s lm
      let users2 := mapDelete r.1.users userId
      ({ r.1 with users := users2 }, r.2 ++ broadcastUserList users2)

/-- Inbound protocol messages (`message.type` dispatch,
server.ts:180-194); `other` covers the unknown-type default branch. -/
inductive InMsg
  | join (username : String)
  | message (text : String)
  | file (data : FileTransfer)
  | other
  deriving DecidableEq, Repr

/-- `handleWebSocketMessage` (server.ts:180-194). -/
def handleWebSocketMessage (s : ServerState) (userId : String) (m : InMsg)
    (wsOpen : Bool) (msgId ts : String) : ServerState × List Effect :=
  match m with
  | InMsg.join username => handleUserJoin s userId username wsOpen msgId ts
  | InMsg.message text => handleChatMessage s userId text msgId ts
  | InMsg.file d => handleFileTransfer s userId d msgId ts
  | InMsg.other => (s, [])

/-- One transport-level input to the hub: a parsed inbound message on a
connection, or that connection's close event. -/
inductive Input
  | wsMessage (userId : String) (m : InMsg) (wsOpen : Bool) (msgId ts : String)
  | wsClose (userId : String) (msgId ts : String)
  deriving DecidableEq, Repr

/-- One dispatch step of the hub (server.ts:155-169). -/
def step (s : ServerState) : Input → ServerState × List Effect
  | Input.wsMessage uid m op fid ts => handleWebSocketMessage s uid m op fid ts
  | Input.wsClose uid fid ts => handleUserDisconnect s uid fid ts

/-- Iterate `broadcastMessage` over a list of events (a sequence of
`publish` calls). -/
def publishAll (s : ServerState) : List ChatMessage → ServerState
  | [] => s
  | m :: ms => publishAll (broadcastMessage s m).1 ms

/-- Statement helper: recognize a `chatLog` push in an effect trace. -/
def isAppendLog : Effect → Bool
  | Effect.appendLog _ => true
  | _ => false

/-- Statement helper: recognize the private `joined` snapshot send in an
effect trace. -/
def isJoinedSend : Effect → Bool
  | Effect.send _ (OutMsg.joined _ _) => true
  | _ => false

/-- Statement helper: recognize a `join` protocol message arriving on the
given connection. -/
def isJoinInputFor (userId : String) : Input → Bool
  | Input.wsMessage uid (InMsg.join _) _ _ _ => uid == userId
  | _ => false

/-- Statement helper: erase exactly the places where the declared
`fileSize` can surface in an effect — the rendered text of a chat
message and the raw `fileSize` field of a `file_received`
notification. -/
def eraseSizeInfo : Effect → Effect
  | Effect.appendLog m => Effect.appendLog { m with message := "" }
  | Effect.send uid (OutMsg.message m) =>
      Effect.send uid (OutMsg.message { m with message := "" })
  | Effect.send uid (OutMsg.fileReceived fn fdta snd _ url) =>
      Effect.send uid (OutMsg.fileReceived fn fdta snd 0 url)
  | Effect.saveLog log =>
      Effect.saveLog (log.map (fun m => { m with message := "" }))
  | e => e

/-- Modelled from the spec: "valid base64-encoded binary" content — a
strict well-formedness check (length a multiple of four, every character
from the base64 alphabet or padding).  The server has no such check:
`Buffer.from(-, "base64")` decodes leniently and never fails. -/
def specValidBase64 (s : String) : Bool :=
  s.length % 4 == 0 &&
    s.data.all (fun c => (b64Val? c).isSome || c.toNat == 61)

/-- Fixture: a hub with one joined user `A` (id `"a"`, transport open). -/
def stA : ServerState := ⟨[("a", ⟨"a", "A", true⟩)], []⟩

/-- Fixture: a hub with joined users `A` then `B`, both open. -/
def stAB : ServerState :=
  ⟨[("a", ⟨"a", "A", true⟩), ("b", ⟨"b", "B", true⟩)], []⟩

/-- Fixture: a hub with one joined user named `Alice`. -/
def stAlice1 : ServerState := ⟨[("u1", ⟨"u1", "Alice", true⟩)], []⟩

/-- Fixture: a hub with two distinct joined users both displaying the
name `Alice` (display-name collisions are permitted). -/
def stAlice2 : ServerState :=
  ⟨[("u1", ⟨"u1", "Alice", true⟩), ("u2", ⟨"u2", "Alice", true⟩)], []⟩

/-- Fixture: a file-transfer payload whose content is not valid
base64. -/
def c2FileBad : FileTransfer := ⟨"x.bin", "!!!!", 4, "A"⟩

/-- Fixture: a 10-byte `report.pdf` payload, base64-encoded as the CLI
client would send it. -/
def fdReport : FileTransfer :=
  ⟨"report.pdf",
    String.mk (base64EncodeBytes [1, 2, 3, 4, 5, 6, 7, 8, 9, 10]), 10, "A"⟩

theorem b64Val_b64Char : ∀ v : Nat, v < 64 → b64Val? (b64Char v) = some v := by
  decide

theorem b64Val_pad : b64Val? (Char.ofNat 61) = none := by decide

/-- Decoding inverts encoding on byte lists (all entries below 256). -/
theorem decode_encode : ∀ bytes : List Nat, (∀ b ∈ bytes, b < 256) →
    decodeVals ((base64EncodeBytes bytes).filterMap b64Val?) = bytes
  | [] => fun _ => rfl
  | [b0] => fun h => by
      have h0 : b0 < 256 := h b0 (by simp)
      have e0 := b64Val_b64Char (b0 / 4) (by omega)
      have e1 := b64Val_b64Char (b0 % 4 * 16) (by omega)
      simp only [base64EncodeBytes, List.filterMap_cons, e0, e1, b64Val_pad,
        List.filterMap_nil]
      simp only [decodeVals, List.cons.injEq, and_true]
      omega
  | [b0, b1] => fun h => by
      have h0 : b0 < 256 := h b0 (by simp)
      have h1 : b1 < 256 := h b1 (by simp)
      have e0 := b64Val_b64Char (b0 / 4) (by omega)
      have e1 := b64Val_b64Char (b0 % 4 * 16 + b1 / 16) (by omega)
      have e2 := b64Val_b64Char (b1 % 16 * 4) (by omega)
      simp only [base64EncodeBytes, List.filterMap_cons, e0, e1, e2,
        b64Val_pad, List.filterMap_nil]
      simp only [decodeVals, List.cons.injEq, and_true]
      constructor <;> omega
  | b0 :: b1 :: b2 :: rest => fun h => by
      have h0 : b0 < 256 := h b0 (by simp)
      have h1 : b1 < 256 := h b1 (by simp)
      have h2 : b2 < 256 := h b2 (by simp)
      have ih := decode_encode rest
        (fun b hb => h b (by simp [hb]))
      have e0 := b64Val_b64Char (b0 / 4) (by omega)
      have e1 := b64Val_b64Char (b0 % 4 * 16 + b1 / 16) (by omega)
      have e2 := b64Val_b64Char (b1 % 16 * 4 + b2 / 64) (by omega)
      have e3 := b64Val_b64Char (b2 % 64) (by omega)
      simp only [base64EncodeBytes, List.filterMap_cons, e0, e1, e2, e3]
      simp only [decodeVals, List.cons.injEq]
      refine ⟨by omega, by omega, by omega, ih⟩

/-- The round trip stated on strings, as the wire carries them. -/
theorem decode_encode_string (bytes : List Nat)
    (h : ∀ b ∈ bytes, b < 256) :
    nodeBase64Decode (String.mk (base64EncodeBytes bytes)) = bytes :=
  decode_encode bytes h

theorem mapGet_mapReplace_self (m : List (String × User)) (k : String)
    (v : User) (h : mapMember m k = true) :
    mapGet (mapReplace m k v) k = some v := by
  induction m with
  | nil => simp [mapMember] at h
  | cons p m ih =>
      by_cases hp : p.1 = k
      · simp [mapReplace, mapGet, hp]
      · have h2 : mapMember m k = true := by
          simpa [mapMember, hp] using h
        simp [mapReplace, mapGet, hp, ih h2]

theorem mapGet_append_ne (m : List (String × User)) (k k2 : String)
    (v : User) (h : k2 ≠ k) : mapGet (m ++ [(k, v)]) k2 = mapGet m k2 := by
  have hk : ¬k = k2 := fun hh => h hh.symm
  induction m with
  | nil => simp [mapGet, hk]
  | cons p m ih =>
      by_cases hq : p.1 = k2 <;> simp [mapGet, hq, ih]

theorem mapGet_append_self (m : List (String × User)) (k : String)
    (v : User) (h : mapMember m k = false) :
    mapGet (m ++ [(k, v)]) k = some v := by
  induction m with
  | nil => simp [mapGet]
  | cons p m ih =>
      simp only [mapMember, Bool.or_eq_false_iff, beq_eq_false_iff_ne,
        ne_eq] at h
      simp [mapGet, h.1, ih h.2]

theorem mapMember_false_of_get_none (m : List (String × User)) (k : String)
    (h : mapGet m k = none) : mapMember m k = false := by
  induction m with
  | nil => rfl
  | cons p m ih =>
      by_cases hp : p.1 = k
      · simp [mapGet, hp] at h
      · simp only [mapGet, hp, if_false, reduceIte] at h
        simp [mapMember, hp, ih h]

theorem mapGet_mapSet_self (m : List (String × User)) (k : String)
    (v : User) : mapGet (mapSet m k v) k = some v := by
  unfold mapSet
  by_cases hm : mapMember m k
  · simpa [hm] using mapGet_mapReplace_self m k v hm
  · have hm2 : mapMember m k = false := by simpa using hm
    simpa [hm2] using mapGet_append_self m k v hm2

theorem mapGet_mapReplace_ne (m : List (String × User)) (k k2 : String)
    (v : User) (h : k2 ≠ k) :
    mapGet (mapReplace m k v) k2 = mapGet m k2 := by
  induction m with
  | nil => rfl
  | cons p m ih =>
      by_cases hp : p.1 = k
      · have hk : ¬k = k2 := fun hh => h hh.symm
        have hp2 : ¬p.1 = k2 := by rw [hp]; exact hk
        simp [mapReplace, mapGet, hp, hk, hp2, ih]
      · by_cases hq : p.1 = k2 <;>
          simp [mapReplace, mapGet, hp, hq, h, ih]

theorem mapGet_mapSet_ne (m : List (String × User)) (k k2 : String)
    (v : User) (h : k2 ≠ k) : mapGet (mapSet m k v) k2 = mapGet m k2 := by
  unfold mapSet
  by_cases hm : mapMember m k
  · simpa [hm] using mapGet_mapReplace_ne m k k2 v h
  · have hm2 : mapMember m k = false := by simpa using hm
    simpa [hm2] using mapGet_append_ne m k k2 v h

theorem mapGet_mapDelete_self (m : List (String × User)) (k : String) :
    mapGet (mapDelete m k) k = none := by
  induction m with
  | nil => rfl
  | cons p m ih =>
      by_cases hp : p.1 = k <;> simp [mapDelete, mapGet, hp, ih]

theorem mapGet_mapDelete_ne (m : List (String × User)) (k k2 : String)
    (h : k2 ≠ k) : mapGet (mapDelete m k) k2 = mapGet m k2 := by
  induction m with
  | nil => rfl
  | cons p m ih =>
      by_cases hp : p.1 = k
      · have hk : ¬k = k2 := fun hh => h hh.symm
        have hp2 : ¬p.1 = k2 := by rw [hp]; exact hk
        simp [mapDelete, mapGet, hp, hk, hp2, ih]
      · by_cases hq : p.1 = k2 <;>
          simp [mapDelete, mapGet, hp, hq, h, ih]

/-- When the key is fresh, `Map.set` appends the entry at the end. -/
theorem mapSet_of_get_none (m : List (String × User)) (k : String)
    (v : User) (h : mapGet m k = none) : mapSet m k v = m ++ [(k, v)] := by
  simp [mapSet, mapMember_false_of_get_none m k h]

theorem usernames_append (m : List (String × User)) (k : String)
    (v : User) : usernames (m ++ [(k, v)]) = usernames m ++ [v.username] := by
  simp [usernames]

theorem users_broadcastMessage (s : ServerState) (m : ChatMessage) :
    (broadcastMessage s m).1.users = s.users := rfl

theorem chatLog_broadcastMessage (s : ServerState) (m : ChatMessage) :
    (broadcastMessage s m).1.chatLog = s.chatLog ++ [m] := rfl

theorem chatLog_publishAll (s : ServerState) (ms : List ChatMessage) :
    (publishAll s ms).chatLog = s.chatLog ++ ms := by
  induction ms generalizing s with
  | nil => simp [publishAll]
  | cons m ms ih =>
      simp [publishAll, ih, chatLog_broadcastMessage]

theorem users_handleChatMessage (s : ServerState) (userId text msgId ts :
    String) : (handleChatMessage s userId text msgId ts).1.users = s.users := by
  unfold handleChatMessage
  cases mapGet s.users userId <;> rfl

theorem users_handleFileTransfer (s : ServerState) (userId : String)
    (fd : FileTransfer) (msgId ts : String) :
    (handleFileTransfer s userId fd msgId ts).1.users = s.users := by
  unfold handleFileTransfer
  cases mapGet s.users userId <;> rfl

/-- C1 counterexample: the claim asserts a join with an empty (or
whitespace-only) name is rejected with no ChatEvent and no registry
promotion.  The code has no name validation: joining a fresh hub with
the empty name registers the participant under the empty name, creates
the system join ChatEvent, and broadcasts it. -/
theorem c1_counterexample :
    ("" : String).length = 0 ∧
    mapGet (handleUserJoin ⟨[], []⟩ "u1" "" true "m1" "t1").1.users "u1" =
      some ⟨"u1", "", true⟩ ∧
    (handleUserJoin ⟨[], []⟩ "u1" "" true "m1" "t1").1.chatLog =
      [joinMessage "" "m1" "t1"] ∧
    (handleUserJoin ⟨[], []⟩ "u1" "" true "m1" "t1").2 ≠ [] := by
  refine ⟨rfl, rfl, rfl, by decide⟩

/-- C1 (amended): `handleUserJoin` accepts every supplied name, the
empty and whitespace-only ones included: the participant is always
promoted to joined under exactly the supplied name, and the system
ChatEvent "(name) joined the chat" is always created and appended to the
log. -/
theorem c1_join_accepts_any_name (s : ServerState)
    (userId username : String) (wsOpen : Bool) (msgId ts : String) :
    mapGet (handleUserJoin s userId username wsOpen msgId ts).1.users
      userId = some ⟨userId, username, wsOpen⟩ ∧
    (handleUserJoin s userId username wsOpen msgId ts).1.chatLog =
      s.chatLog ++ [joinMessage username msgId ts] := by
  constructor
  · simpa [handleUserJoin, broadcastMessage] using
      mapGet_mapSet_self s.users userId ⟨userId, username, wsOpen⟩
  · rfl

/-- C2 counterexample: the claim asserts `receive` fails with
`DecodeError` on content that is not valid base64, with no file written,
no state change and no event.  The code's decoder is lenient and total:
for a joined sender and the invalid content `"!!!!"` the handler still
writes a file (here empty) and creates and broadcasts a file
ChatEvent. -/
theorem c2_counterexample :
    specValidBase64 "!!!!" = false ∧
    (handleFileTransfer stA "a" c2FileBad "m1" "t1").2.head? =
      some (Effect.writeFile "received/x.bin" []) ∧
    (handleFileTransfer stA "a" c2FileBad "m1" "t1").1.chatLog.length = 1 := by
  refine ⟨by decide, by decide, by decide⟩

/-- C2 (amended): `handleFileTransfer` fails (as a strict no-op: no file
write, no state change, no event) exactly when the sender id is not
registered.  Decoding cannot fail: for any registered sender the handler
always writes the leniently decoded bytes (invalid characters skipped)
under the given filename and appends a file ChatEvent, even when the
content is not valid base64. -/
theorem c2_unknown_no_op_decode_lenient (s : ServerState)
    (senderId : String) (fd : FileTransfer) (msgId ts : String) :
    (mapGet s.users senderId = none →
      handleFileTransfer s senderId fd msgId ts = (s, [])) ∧
    (∀ u, mapGet s.users senderId = some u →
      (handleFileTransfer s senderId fd msgId ts).2.head? =
        some (Effect.writeFile ("received/" ++ fd.filename)
          (nodeBase64Decode fd.fileData)) ∧
      (handleFileTransfer s senderId fd msgId ts).1.chatLog =
        s.chatLog ++ [fileNoticeMessage u.username fd msgId ts]) := by
  constructor
  · intro h
    simp [handleFileTransfer, h]
  · intro u h
    simp [handleFileTransfer, h, broadcastMessage]

/-- C2 witness: the unknown-sender no-op on an empty hub, and the
always-successful write for the joined sender `A` even on invalid
content. -/
theorem c2_witness :
    (handleFileTransfer ⟨[], []⟩ "zz" c2FileBad "m1" "t1" =
      (⟨[], []⟩, [])) ∧
    ((handleFileTransfer stA "a" c2FileBad "m1" "t1").2.head? =
      some (Effect.writeFile ("received/" ++ c2FileBad.filename)
        (nodeBase64Decode c2FileBad.fileData)) ∧
     (handleFileTransfer stA "a" c2FileBad "m1" "t1").1.chatLog =
       stA.chatLog ++ [fileNoticeMessage "A" c2FileBad "m1" "t1"]) :=
  ⟨(c2_unknown_no_op_decode_lenient ⟨[], []⟩ "zz" c2FileBad "m1" "t1").1
      rfl,
    (c2_unknown_no_op_decode_lenient stA "a" c2FileBad "m1" "t1").2
      ⟨"a", "A", true⟩ rfl⟩

/-- C3: after any sequence of publish calls the log equals the prior log
followed by the published events in call order (so from an empty log, N
publishes leave exactly N events in order), and each single publish
first appends its event to the log and then sends the serialized
message to exactly the registered participants whose transport is
open. -/
theorem c3_history_order (s : ServerState) (ms : List ChatMessage) :
    (publishAll s ms).chatLog = s.chatLog ++ ms ∧
    (publishAll s ms).chatLog.length = s.chatLog.length + ms.length ∧
    ∀ (s2 : ServerState) (m : ChatMessage),
      (broadcastMessage s2 m).2 =
        Effect.appendLog m ::
          (broadcast s2.users (OutMsg.message m) ++
            [Effect.saveLog (s2.chatLog ++ [m])]) ∧
      ∀ uid, Effect.send uid (OutMsg.message m) ∈ (broadcastMessage s2 m).2
          ↔ ∃ u, (uid, u) ∈ s2.users ∧ u.wsOpen = true := by
  refine ⟨chatLog_publishAll s ms, ?_, ?_⟩
  · rw [chatLog_publishAll]
    simp
  · intro s2 m
    refine ⟨rfl, fun uid => ?_⟩
    constructor
    · intro hmem
      simp only [broadcastMessage, List.mem_cons, List.mem_append,
        List.mem_singleton] at hmem
      rcases hmem with h | h | h
      · exact absurd h (by simp)
      · simp only [broadcast, List.mem_map, List.mem_filter] at h
        obtain ⟨p, ⟨hp, hop⟩, heq⟩ := h
        injection heq with h1 _
        exact ⟨p.2, by rw [← h1]; exact hp, hop⟩
      · exact absurd h (by simp)
    · rintro ⟨u, hu, hop⟩
      simp only [broadcastMessage, List.mem_cons, List.mem_append]
      refine Or.inr (Or.inl ?_)
      simp only [broadcast, List.mem_map, List.mem_filter]
      exact ⟨(uid, u), ⟨hu, hop⟩, rfl⟩

/-- C4: on a connection with no successful join (its id absent from the
registry) a chat message and a file transfer are both strict no-ops: the
state is unchanged and no effect — no ChatEvent, no log append, no
broadcast, no file write — is produced. -/
theorem c4_unjoined_no_op (s : ServerState) (userId text : String)
    (fd : FileTransfer) (msgId ts : String)
    (h : mapGet s.users userId = none) :
    handleChatMessage s userId text msgId ts = (s, []) ∧
    handleFileTransfer s userId fd msgId ts = (s, []) := by
  constructor <;> simp [handleChatMessage, handleFileTransfer, h]

/-- A close event for an id absent from the registry is a no-op
(server.ts:284-286). -/
theorem handleUserDisconnect_none (s : ServerState) (userId msgId ts : String)
    (h : mapGet s.users userId = none) :
    handleUserDisconnect s userId msgId ts = (s, []) := by
  simp [handleUserDisconnect, h]

theorem filter_eq_nil_of_forall_false (p : Effect → Bool) (l : List Effect)
    (h : ∀ e ∈ l, p e = false) : l.filter p = [] := by
  induction l with
  | nil => rfl
  | cons e l ih =>
      have he := h e (List.mem_cons_self e l)
      simp [List.filter_cons, he,
        ih (fun x hx => h x (List.mem_cons_of_mem e hx))]

theorem mem_usernames_mapDelete (m : List (String × User)) (k n : String)
    (h : n ∈ usernames (mapDelete m k)) :
    ∃ p ∈ m, p.1 ≠ k ∧ p.2.username = n := by
  induction m with
  | nil => simp [mapDelete, usernames] at h
  | cons p m ih =>
      by_cases hp : p.1 = k
      · rw [show mapDelete (p :: m) k = mapDelete m k by
          simp [mapDelete, hp]] at h
        obtain ⟨q, hq, h1, h2⟩ := ih h
        exact ⟨q, List.mem_cons_of_mem p hq, h1, h2⟩
      · rw [show mapDelete (p :: m) k = p :: mapDelete m k by
          simp [mapDelete, hp]] at h
        simp only [usernames, List.map_cons, List.mem_cons] at h
        rcases h with h | h
        · exact ⟨p, List.mem_cons_self p m, hp, h.symm⟩
        · obtain ⟨q, hq, h1, h2⟩ := ih h
          exact ⟨q, List.mem_cons_of_mem p hq, h1, h2⟩

/-- C5: a successful join emits, in order, the publish trace of the
system join event, then — exactly once, to the joining connection
alone — the private snapshot carrying the full history (the join event
included) and the current user list, then the user-list broadcast.  When
the joining id was not yet registered, the snapshot's user list is the
previous display names followed by the new name, so a participant
joining after `A` sees `A` in its snapshot. -/
theorem c5_join_order_and_snapshot (s : ServerState)
    (userId username : String) (wsOpen : Bool) (msgId ts : String) :
    (handleUserJoin s userId username wsOpen msgId ts).2 =
      (broadcastMessage
          { s with users := mapSet s.users userId ⟨userId, username, wsOpen⟩ }
          (joinMessage username msgId ts)).2 ++
        (Effect.send userId (OutMsg.joined
            (s.chatLog ++ [joinMessage username msgId ts])
            (usernames (mapSet s.users userId ⟨userId, username, wsOpen⟩))) ::
          broadcastUserList
            (mapSet s.users userId ⟨userId, username, wsOpen⟩)) ∧
    ((handleUserJoin s userId username wsOpen msgId ts).2.filter
        isJoinedSend =
      [Effect.send userId (OutMsg.joined
          (s.chatLog ++ [joinMessage username msgId ts])
          (usernames (mapSet s.users userId ⟨userId, username, wsOpen⟩)))]) ∧
    (mapGet s.users userId = none →
      usernames (mapSet s.users userId ⟨userId, username, wsOpen⟩) =
        usernames s.users ++ [username]) := by
  refine ⟨rfl, ?_, ?_⟩
  · rw [show (handleUserJoin s userId username wsOpen msgId ts).2 =
        (broadcastMessage
            { s with users := mapSet s.users userId ⟨userId, username, wsOpen⟩ }
            (joinMessage username msgId ts)).2 ++
          (Effect.send userId (OutMsg.joined
              (s.chatLog ++ [joinMessage username msgId ts])
              (usernames (mapSet s.users userId ⟨userId, username, wsOpen⟩))) ::
            broadcastUserList
              (mapSet s.users userId ⟨userId, username, wsOpen⟩)) from rfl]
    rw [List.filter_append, List.filter_cons]
    have h1 : ((broadcastMessage
        { s with users := mapSet s.users userId ⟨userId, username, wsOpen⟩ }
        (joinMessage username msgId ts)).2).filter isJoinedSend = [] := by
      apply filter_eq_nil_of_forall_false
      intro e he
      simp only [broadcastMessage, broadcast, List.mem_cons, List.mem_append,
        List.mem_map, List.mem_singleton] at he
      rcases he with rfl | ⟨p, -, rfl⟩ | rfl | hnil
      · rfl
      · rfl
      · rfl
      · exact absurd hnil (List.not_mem_nil e)
    have h2 : (broadcastUserList
        (mapSet s.users userId ⟨userId, username, wsOpen⟩)).filter
          isJoinedSend = [] := by
      apply filter_eq_nil_of_forall_false
      intro e he
      simp only [broadcastUserList, broadcast, List.mem_map] at he
      obtain ⟨p, -, rfl⟩ := he
      rfl
    rw [h1, h2]
    rfl
  · intro h
    rw [mapSet_of_get_none s.users userId _ h, usernames_append]

/-- C5 witness: on a fresh hub `A` joins, then `B` joins; `B`'s snapshot
user list is the prior names followed by `"B"`, it contains `"A"`, and
the snapshot is sent exactly once. -/
theorem c5_witness :
    mapGet (handleUserJoin ⟨[], []⟩ "a" "A" true "m1" "t1").1.users "b" =
      none ∧
    usernames (mapSet (handleUserJoin ⟨[], []⟩ "a" "A" true "m1" "t1").1.users
        "b" ⟨"b", "B", true⟩) =
      usernames (handleUserJoin ⟨[], []⟩ "a" "A" true "m1" "t1").1.users
        ++ ["B"] ∧
    "A" ∈ usernames (mapSet
        (handleUserJoin ⟨[], []⟩ "a" "A" true "m1" "t1").1.users
        "b" ⟨"b", "B", true⟩) ∧
    ((handleUserJoin (handleUserJoin ⟨[], []⟩ "a" "A" true "m1" "t1").1
        "b" "B" true "m2" "t2").2.filter isJoinedSend).length = 1 := by
  have h := c5_join_order_and_snapshot
    (handleUserJoin ⟨[], []⟩ "a" "A" true "m1" "t1").1 "b" "B" true "m2" "t2"
  refine ⟨by decide, h.2.2 (by decide), by decide, ?_⟩
  rw [h.2.1]
  rfl

/-- C6 counterexample: the claim asserts that after the disconnect of a
joined participant, `list()` excludes that participant's name.  Display
names are not unique: with two participants both named `Alice`,
disconnecting one leaves `Alice` in the user list. -/
theorem c6_counterexample :
    mapGet stAlice2.users "u1" = some ⟨"u1", "Alice", true⟩ ∧
    "Alice" ∈
      usernames (handleUserDisconnect stAlice2 "u1" "m1" "t1").1.users := by
  exact ⟨rfl, by decide⟩

/-- C6 (amended): disconnecting a joined participant emits exactly one
system ChatEvent, the leave event "(name) left the chat"; the
participant's registry entry is removed; the user list afterwards
excludes the name provided no other participant shares it; and a second
close for the same id is a strict no-op. -/
theorem c6_disconnect_once_and_idempotent (s : ServerState)
    (userId : String) (u : User) (msgId ts : String)
    (h : mapGet s.users userId = some u) :
    ((handleUserDisconnect s userId msgId ts).2.filter isAppendLog =
      [Effect.appendLog (leaveMessage u.username msgId ts)]) ∧
    mapGet (handleUserDisconnect s userId msgId ts).1.users userId = none ∧
    ((∀ p ∈ s.users, p.1 ≠ userId → p.2.username ≠ u.username) →
      u.username ∉
        usernames (handleUserDisconnect s userId msgId ts).1.users) ∧
    (∀ msgId2 ts2, handleUserDisconnect
        (handleUserDisconnect s userId msgId ts).1 userId msgId2 ts2 =
      ((handleUserDisconnect s userId msgId ts).1, [])) := by
  have hstate : (handleUserDisconnect s userId msgId ts).1 =
      { users := mapDelete s.users userId,
        chatLog := s.chatLog ++ [leaveMessage u.username msgId ts] } := by
    simp [handleUserDisconnect, h, broadcastMessage]
  have heffs : (handleUserDisconnect s userId msgId ts).2 =
      Effect.appendLog (leaveMessage u.username msgId ts) ::
        ((broadcast s.users
            (OutMsg.message (leaveMessage u.username msgId ts)) ++
          [Effect.saveLog
            (s.chatLog ++ [leaveMessage u.username msgId ts])]) ++
          broadcastUserList (mapDelete s.users userId)) := by
    simp [handleUserDisconnect, h, broadcastMessage]
  have hnone : mapGet (handleUserDisconnect s userId msgId ts).1.users
      userId = none := by
    rw [hstate]
    exact mapGet_mapDelete_self s.users userId
  refine ⟨?_, hnone, ?_, ?_⟩
  · rw [heffs, List.filter_cons]
    have hrest : (((broadcast s.users
        (OutMsg.message (leaveMessage u.username msgId ts)) ++
          [Effect.saveLog
            (s.chatLog ++ [leaveMessage u.username msgId ts])]) ++
          broadcastUserList (mapDelete s.users userId))).filter
        isAppendLog = [] := by
      apply filter_eq_nil_of_forall_false
      intro e he
      simp only [broadcast, broadcastUserList, List.mem_append,
        List.mem_map, List.mem_singleton] at he
      rcases he with ⟨⟨p, -, rfl⟩ | rfl⟩ | ⟨p, -, rfl⟩ <;> rfl
    rw [hrest]
    rfl
  · intro huniq hmem
    rw [hstate] at hmem
    obtain ⟨p, hp, hne, hname⟩ :=
      mem_usernames_mapDelete s.users userId u.username hmem
    exact huniq p hp hne hname
  · intro msgId2 ts2
    exact handleUserDisconnect_none _ _ _ _ hnone

/-- C6 witness: disconnecting the only `Alice` emits exactly the one
leave event, removes her, leaves a user list without `"Alice"`, and a
second close is a no-op. -/
theorem c6_witness :
    mapGet stAlice1.users "u1" = some ⟨"u1", "Alice", true⟩ ∧
    ((handleUserDisconnect stAlice1 "u1" "m1" "t1").2.filter isAppendLog =
      [Effect.appendLog (leaveMessage "Alice" "m1" "t1")]) ∧
    mapGet (handleUserDisconnect stAlice1 "u1" "m1" "t1").1.users "u1" =
      none ∧
    "Alice" ∉
      usernames (handleUserDisconnect stAlice1 "u1" "m1" "t1").1.users ∧
    handleUserDisconnect (handleUserDisconnect stAlice1 "u1" "m1" "t1").1
        "u1" "m2" "t2" =
      ((handleUserDisconnect stAlice1 "u1" "m1" "t1").1, []) := by
  have h := c6_disconnect_once_and_idempotent stAlice1 "u1"
    ⟨"u1", "Alice", true⟩ "m1" "t1" rfl
  exact ⟨rfl, h.1, h.2.1, h.2.2.1 (by decide), h.2.2.2 "m2" "t2"⟩

/-- C7: a file transfer from a joined sender writes the decoded bytes to
`received/<filename>` (the first effect performed), and the
`file_received` notification is delivered to exactly the other
registered participants whose transport is open — never to the sender
itself. -/
theorem c7_file_write_and_exclusive_notify (s : ServerState)
    (senderId : String) (u : User) (fd : FileTransfer) (msgId ts : String)
    (h : mapGet s.users senderId = some u) :
    (handleFileTransfer s senderId fd msgId ts).2.head? =
      some (Effect.writeFile ("received/" ++ fd.filename)
        (nodeBase64Decode fd.fileData)) ∧
    ∀ uid, Effect.send uid (fileReceivedMsg fd u.username) ∈
        (handleFileTransfer s senderId fd msgId ts).2 ↔
      (uid ≠ senderId ∧ ∃ v, (uid, v) ∈ s.users ∧ v.wsOpen = true) := by
  have heffs : (handleFileTransfer s senderId fd msgId ts).2 =
      Effect.writeFile ("received/" ++ fd.filename)
          (nodeBase64Decode fd.fileData) ::
        ((Effect.appendLog (fileNoticeMessage u.username fd msgId ts) ::
          (broadcast s.users
              (OutMsg.message (fileNoticeMessage u.username fd msgId ts)) ++
            [Effect.saveLog (s.chatLog ++
              [fileNoticeMessage u.username fd msgId ts])])) ++
          broadcastToOthers s.users senderId (fileReceivedMsg fd u.username)) := by
    simp [handleFileTransfer, h, broadcastMessage]
  constructor
  · rw [heffs]
    rfl
  · intro uid
    rw [heffs]
    constructor
    · intro hmem
      rcases List.mem_cons.mp hmem with heq | hmem
      · exact absurd heq (by simp [fileReceivedMsg])
      rcases List.mem_append.mp hmem with hmem | hmem
      · rcases List.mem_cons.mp hmem with heq | hmem
        · exact absurd heq (by simp [fileReceivedMsg])
        rcases List.mem_append.mp hmem with hmem | hmem
        · rw [show broadcast s.users
              (OutMsg.message (fileNoticeMessage u.username fd msgId ts)) =
              (s.users.filter (fun p => p.2.wsOpen)).map
                (fun p => Effect.send p.1
                  (OutMsg.message
                    (fileNoticeMessage u.username fd msgId ts))) from rfl]
            at hmem
          obtain ⟨p, -, heq⟩ := List.mem_map.mp hmem
          exact absurd heq (by simp [fileReceivedMsg])
        · rw [List.mem_singleton] at hmem
          exact absurd hmem (by simp [fileReceivedMsg])
      · rw [show broadcastToOthers s.users senderId
            (fileReceivedMsg fd u.username) =
            (s.users.filter
              (fun p => p.1 != senderId && p.2.wsOpen)).map
                (fun p => Effect.send p.1 (fileReceivedMsg fd u.username))
            from rfl] at hmem
        obtain ⟨p, hp, heq⟩ := List.mem_map.mp hmem
        obtain ⟨hpmem, hpcond⟩ := List.mem_filter.mp hp
        rw [Bool.and_eq_true, bne_iff_ne] at hpcond
        injection heq with h1 _
        refine ⟨h1 ▸ hpcond.1, p.2, ?_, hpcond.2⟩
        rw [← h1]
        exact hpmem
    · rintro ⟨hne, v, hv, hop⟩
      refine List.mem_cons_of_mem _ (List.mem_append_right _ ?_)
      simp only [broadcastToOthers, List.mem_map, List.mem_filter]
      exact ⟨(uid, v), ⟨hv, by simp [hne, hop]⟩, rfl⟩

/-- C7 witness: on the hub with `A` and `B` (both open), `A` sends the
10-byte `report.pdf`; exactly those 10 bytes are written to
`received/report.pdf`, `B` receives the `file_received` notification,
`A` does not. -/
theorem c7_witness :
    mapGet stAB.users "a" = some ⟨"a", "A", true⟩ ∧
    (handleFileTransfer stAB "a" fdReport "m1" "t1").2.head? =
      some (Effect.writeFile "received/report.pdf"
        [1, 2, 3, 4, 5, 6, 7, 8, 9, 10]) ∧
    Effect.send "b" (fileReceivedMsg fdReport "A") ∈
      (handleFileTransfer stAB "a" fdReport "m1" "t1").2 ∧
    Effect.send "a" (fileReceivedMsg fdReport "A") ∉
      (handleFileTransfer stAB "a" fdReport "m1" "t1").2 := by
  have h := c7_file_write_and_exclusive_notify stAB "a" ⟨"a", "A", true⟩
    fdReport "m1" "t1" rfl
  refine ⟨rfl, ?_, ?_, ?_⟩
  · rw [h.1]
    decide
  · exact (h.2 "b").mpr ⟨by decide, ⟨"b", "B", true⟩, by decide, rfl⟩
  · intro hc
    exact absurd ((h.2 "a").mp hc).1 (by simp)
theorem c4_witness :
    mapGet (ServerState.mk [] []).users "u1" = none ∧
    handleChatMessage ⟨[], []⟩ "u1" "hi" "m1" "t1" = (⟨[], []⟩, []) ∧
    handleFileTransfer ⟨[], []⟩ "u1" ⟨"f.txt", "AQ==", 1, "A"⟩ "m1" "t1" =
      (⟨[], []⟩, []) :=
  ⟨rfl,
    (c4_unjoined_no_op ⟨[], []⟩ "u1" "hi" ⟨"f.txt", "AQ==", 1, "A"⟩
      "m1" "t1" rfl).1,
    (c4_unjoined_no_op ⟨[], []⟩ "u1" "hi" ⟨"f.txt", "AQ==", 1, "A"⟩
      "m1" "t1" rfl).2⟩

/-- C8: encoding any byte sequence to the base64 wire format (as the
clients do) and decoding it through the file-relay receive path yields
byte-identical content; concretely, a transfer whose `fileData` is the
encoding of the bytes writes exactly those bytes to durable storage. -/
theorem c8_roundtrip (bytes : List Nat) (h : ∀ b ∈ bytes, b < 256) :
    nodeBase64Decode (String.mk (base64EncodeBytes bytes)) = bytes ∧
    ∀ (s : ServerState) (senderId : String) (u : User) (fd : FileTransfer)
      (msgId ts : String), mapGet s.users senderId = some u →
      fd.fileData = String.mk (base64EncodeBytes bytes) →
      (handleFileTransfer s senderId fd msgId ts).2.head? =
        some (Effect.writeFile ("received/" ++ fd.filename) bytes) := by
  refine ⟨decode_encode_string bytes h, ?_⟩
  intro s senderId u fd msgId ts hu hfd
  have hw : (handleFileTransfer s senderId fd msgId ts).2.head? =
      some (Effect.writeFile ("received/" ++ fd.filename)
        (nodeBase64Decode fd.fileData)) := by
    simp [handleFileTransfer, hu]
  rw [hw, hfd, decode_encode_string bytes h]

/-- C8 witness: the 3-byte payload `[0x00, 0xFF, 0x10]` round-trips
exactly, and a transfer of its encoding writes exactly those bytes. -/
theorem c8_witness :
    (∀ b ∈ [0, 255, 16], b < 256) ∧
    nodeBase64Decode (String.mk (base64EncodeBytes [0, 255, 16])) =
      [0, 255, 16] ∧
    (handleFileTransfer stA "a"
        ⟨"payload.bin", String.mk (base64EncodeBytes [0, 255, 16]), 3, "A"⟩
        "m1" "t1").2.head? =
      some (Effect.writeFile ("received/" ++ "payload.bin")
        [0, 255, 16]) :=
  ⟨by decide, (c8_roundtrip [0, 255, 16] (by decide)).1,
    (c8_roundtrip [0, 255, 16] (by decide)).2 stA "a" ⟨"a", "A", true⟩
      ⟨"payload.bin", String.mk (base64EncodeBytes [0, 255, 16]), 3, "A"⟩
      "m1" "t1" rfl rfl⟩

/-- C9 counterexample: the claim asserts a joined participant's name is
never empty and is immutable after join.  The code validates nothing and
a second join on the same connection overwrites the entry: joining a
fresh hub with the empty name yields a joined participant whose name is
empty, and a later join with `"B"` on the same connection changes it. -/
theorem c9_counterexample :
    mapGet (handleUserJoin ⟨[], []⟩ "u1" "" true "m1" "t1").1.users "u1" =
      some ⟨"u1", "", true⟩ ∧
    mapGet (handleUserJoin
        (handleUserJoin ⟨[], []⟩ "u1" "" true "m1" "t1").1
        "u1" "B" true "m2" "t2").1.users "u1" =
      some ⟨"u1", "B", true⟩ := by
  exact ⟨rfl, by decide⟩

/-- C9 (amended): a stored display name is exactly whatever string the
most recent join on that connection supplied — possibly empty, and
changeable by a later join.  What does hold: no input other than a join
on that very connection ever changes a stored name — after any such step,
a registered name was already registered unchanged before it. -/
theorem c9_name_changed_only_by_join (s : ServerState) (inp : Input)
    (userId : String) (u : User)
    (h1 : isJoinInputFor userId inp = false)
    (h2 : mapGet (step s inp).1.users userId = some u) :
    mapGet s.users userId = some u := by
  cases inp with
  | wsMessage uid m op fid ts =>
      cases m with
      | join name =>
          have hne : uid ≠ userId := by
            simpa [isJoinInputFor] using h1
          have husers : (step s
              (Input.wsMessage uid (InMsg.join name) op fid ts)).1.users =
              mapSet s.users uid ⟨uid, name, op⟩ := rfl
          rw [husers,
            mapGet_mapSet_ne s.users uid userId _ (fun hh => hne hh.symm)]
            at h2
          exact h2
      | message text =>
          rw [show (step s
              (Input.wsMessage uid (InMsg.message text) op fid ts)).1.users =
              (handleChatMessage s uid text fid ts).1.users from rfl,
            users_handleChatMessage] at h2
          exact h2
      | file d =>
          rw [show (step s
              (Input.wsMessage uid (InMsg.file d) op fid ts)).1.users =
              (handleFileTransfer s uid d fid ts).1.users from rfl,
            users_handleFileTransfer] at h2
          exact h2
      | other => exact h2
  | wsClose uid fid ts =>
      cases hg : mapGet s.users uid with
      | none =>
          rw [show step s (Input.wsClose uid fid ts) =
              handleUserDisconnect s uid fid ts from rfl,
            handleUserDisconnect_none s uid fid ts hg] at h2
          exact h2
      | some v =>
          have husers : (step s (Input.wsClose uid fid ts)).1.users =
              mapDelete s.users uid := by
            simp [step, handleUserDisconnect, hg, broadcastMessage]
          rw [husers] at h2
          by_cases he : userId = uid
          · rw [he, mapGet_mapDelete_self] at h2
            cases h2
          · rw [mapGet_mapDelete_ne s.users uid userId he] at h2
            exact h2

/-- C9 witness: a chat message on `A`'s connection is not a join and does
not touch `A`'s stored name. -/
theorem c9_witness :
    isJoinInputFor "a"
      (Input.wsMessage "a" (InMsg.message "hi") true "m1" "t1") = false ∧
    mapGet (step stA
        (Input.wsMessage "a" (InMsg.message "hi") true "m1" "t1")).1.users
      "a" = some ⟨"a", "A", true⟩ ∧
    mapGet stA.users "a" = some ⟨"a", "A", true⟩ := by
  refine ⟨rfl, by decide, ?_⟩
  exact c9_name_changed_only_by_join stA
    (Input.wsMessage "a" (InMsg.message "hi") true "m1" "t1") "a"
    ⟨"a", "A", true⟩ rfl (by decide)

/-- C10: the declared `fileSize` is never validated against the content:
the (single, first) durable write stores exactly the leniently decoded
`fileData`, identically for any two declared sizes; the registry is
untouched; the log gains the file notice whose text renders the declared
size through `formatFileSize`; and erasing the rendered notice text and
the notification's raw `fileSize` field makes the effect traces of any
two declared sizes identical — `fileSize` surfaces nowhere else. -/
theorem c10_fileSize_never_validated (s : ServerState) (senderId : String)
    (u : User) (fd : FileTransfer) (msgId ts : String) (sz1 sz2 : Nat)
    (h : mapGet s.users senderId = some u) :
    ((handleFileTransfer s senderId { fd with fileSize := sz1 } msgId
        ts).2.head? =
      some (Effect.writeFile ("received/" ++ fd.filename)
        (nodeBase64Decode fd.fileData))) ∧
    ((handleFileTransfer s senderId { fd with fileSize := sz1 } msgId
        ts).1.users = s.users) ∧
    ((handleFileTransfer s senderId { fd with fileSize := sz1 } msgId
        ts).1.chatLog =
      s.chatLog ++ [fileNoticeMessage u.username
        { fd with fileSize := sz1 } msgId ts]) ∧
    ((fileNoticeMessage u.username { fd with fileSize := sz1 } msgId
        ts).message =
      "📎 Shared file: " ++ fd.filename ++ " (" ++ formatFileSize sz1
        ++ ")") ∧
    ((handleFileTransfer s senderId { fd with fileSize := sz1 } msgId
        ts).2.map eraseSizeInfo =
      (handleFileTransfer s senderId { fd with fileSize := sz2 } msgId
        ts).2.map eraseSizeInfo) := by
  refine ⟨?_, ?_, ?_, rfl, ?_⟩
  · simp [handleFileTransfer, h]
  · exact users_handleFileTransfer s senderId _ msgId ts
  · simp [handleFileTransfer, h, broadcastMessage]
  · simp only [handleFileTransfer, h, broadcastMessage, broadcast,
      broadcastToOthers, fileReceivedMsg, fileNoticeMessage,
      List.map_cons, List.map_append, List.map_map, List.map_nil,
      eraseSizeInfo]
    rfl

/-- C10 witness: for the encoded 10-byte `report.pdf` the declared sizes
5 and 999999 produce the same write and, after erasing the rendered
size, the same trace. -/
theorem c10_witness :
    ((handleFileTransfer stA "a" { fdReport with fileSize := 5 } "m1"
        "t1").2.head? =
      some (Effect.writeFile ("received/" ++ fdReport.filename)
        (nodeBase64Decode fdReport.fileData))) ∧
    ((handleFileTransfer stA "a" { fdReport with fileSize := 5 } "m1"
        "t1").2.map eraseSizeInfo =
      (handleFileTransfer stA "a" { fdReport with fileSize := 999999 }
        "m1" "t1").2.map eraseSizeInfo) := by
  have h := c10_fileSize_never_validated stA "a" ⟨"a", "A", true⟩ fdReport
    "m1" "t1" 5 999999 rfl
  exact ⟨h.1, h.2.2.2.2⟩

end Honogram
